import Mathlib

/-!
Verification of the anime-image collection pipeline.

This file embeds the core logic of the repository in Lean 4 and proves (or
refutes) the specified properties about it:

* the relevance scorer and search-result filter of `AdvancedImageScraper`
  (`filterRelevantImages`, `isClothingOnlyImage`, `hasCharacterIndicators`,
  `searchImages`);
* the weighted keyword distributor (`KeywordUtils.getWeightedKeywordDistribution`)
  and the call site in `AnimeImageCollectorApp.run`;
* the image-normalization pipeline of `AdvancedImageProcessor`
  (`applySmartResize`, `optimizeJpegQuality`, `processImage`);
* the SQLite-backed store (`AdvancedDatabaseManager.insertImage`,
  `insertImagesBatch`) with its `UNIQUE original_url` schema constraint.

Modelling conventions: JavaScript number arithmetic on scores, weights and
aspect ratios is embedded exactly over `ℚ` (`Math.floor` is `Int.floor`,
`Math.round x` is `⌊x + 1/2⌋`); integer-valued quantities (qualities, byte
sizes, pixel dimensions, row ids) are embedded over `ℤ`/`ℕ`.  JavaScript
strings are Lean `String`s; `String.prototype.includes` is `strContains`
below, and `toLowerCase` maps `Char.toLower` over the characters.  Fallible
operations return `Option`/`Except`; external collaborators (the rendered
search page, the JPEG encoder, database faults) enter as explicit function
or data parameters.
-/

/-- JavaScript `String.prototype.toLowerCase`, restricted to the per-character
lowercasing that the scraped ASCII metadata exercises. -/
def toLowerStr (s : String) : String :=
  String.mk (s.data.map Char.toLower)

/-- JavaScript `String.prototype.includes`: `pat` occurs as a contiguous
substring of `s`. -/
def strContains (s pat : String) : Bool :=
  (List.range (s.data.length + 1)).any (fun i => pat.data.isPrefixOf (s.data.drop i))

/-- JavaScript `Math.round`: round half toward positive infinity. -/
def jsRound (x : ℚ) : ℤ := ⌊x + 1/2⌋

/-- First word of a string: `s.split(' ')[0]` in the source. -/
def headWord (s : String) : String :=
  String.mk (s.data.takeWhile (fun c => c ≠ ' '))

/-! ## Scraper model (`AdvancedImageScraper`, src/unnamed/part_001) -/

/-- `CharacterKeyword` from advanced-config: one keyword job.  The config
field `relevanceScore` is the base score the scorer starts from. -/
structure CharacterKeyword where
  keyword : String
  category : String
  subcategory : String
  targetCount : ℕ
  relevanceScore : ℚ

/-- `EnhancedImageData`: one scraped candidate.  `width`/`height` are
optional metadata (`undefined` is `none`; JavaScript treats `0` as falsy). -/
structure EnhancedImageData where
  url : String
  altText : String
  keyword : String
  category : String
  subcategory : String
  relevanceScore : ℚ
  width : Option ℕ
  height : Option ℕ
  fileSize : Option ℕ

/-- Alt-text phrases of `isClothingOnlyImage` (`clothingOnlyKeywords`). -/
def clothingOnlyKeywords : List String :=
  ["outfit only", "clothing only", "costume only", "dress only",
   "uniform only", "outfit without", "clothing without",
   "just outfit", "just clothing", "just costume",
   "empty outfit", "empty costume", "empty dress",
   "outfit design", "clothing design", "costume design",
   "pattern", "texture", "fabric",
   "mannequin", "hanger", "display"]

/-- URL phrases of `isClothingOnlyImage` (`urlClothingKeywords`). -/
def urlClothingKeywords : List String :=
  ["outfit-only", "clothing-only", "costume-only",
   "pattern", "texture", "design-only",
   "mannequin", "display"]

/-- `AdvancedImageScraper.isClothingOnlyImage`: the exclusion (veto) check.
Its arguments are the already-lowercased alt text and URL. -/
def isClothingOnlyImage (altText url : String) : Bool :=
  clothingOnlyKeywords.any (fun kw => strContains altText kw) ||
    urlClothingKeywords.any (fun kw => strContains url kw)

/-- Alt-text phrases of `hasCharacterIndicators` (`characterKeywords`). -/
def characterKeywords : List String :=
  ["girl", "boy", "woman", "man", "character",
   "person", "people", "human", "figure",
   "face", "portrait", "body", "full body",
   "standing", "sitting", "pose", "posing",
   "smile", "smiling", "expression",
   "hair", "eyes", "skin",
   "anime girl", "anime boy", "anime character",
   "manga character", "waifu", "husbando"]

/-- URL phrases of `hasCharacterIndicators` (`urlCharacterKeywords`). -/
def urlCharacterKeywords : List String :=
  ["character", "girl", "boy", "anime-girl", "anime-boy",
   "person", "people", "human", "figure",
   "portrait", "face"]

/-- `AdvancedImageScraper.hasCharacterIndicators`. -/
def hasCharacterIndicators (altText url : String) : Bool :=
  characterKeywords.any (fun kw => strContains altText kw) ||
    urlCharacterKeywords.any (fun kw => strContains url kw)

/-- The additive bonuses of the inclusion pass of `filterRelevantImages`,
in source order (`score += ...` statements, lines 254-274 of the scraper).
The two dimension bonuses are guarded by `if (img.width && img.height)`,
so `undefined` and `0` dimensions disable them. -/
def bonusList (keywordData : CharacterKeyword) (img : EnhancedImageData) : List ℚ :=
  let altLower := toLowerStr img.altText
  let keywordLower := toLowerStr keywordData.keyword
  let imgUrlLower := toLowerStr img.url
  let w := img.width.getD 0
  let h := img.height.getD 0
  [if hasCharacterIndicators altLower imgUrlLower then 15/100 else 0,
   if strContains altLower (headWord keywordLower) then 1/10 else 0,
   if strContains altLower "anime" then 5/100 else 0,
   if strContains altLower "character" then 5/100 else 0,
   if strContains altLower keywordData.category then 5/100 else 0,
   if strContains altLower keywordData.subcategory then 5/100 else 0,
   if w ≠ 0 ∧ h ≠ 0 ∧ (7/10 : ℚ) ≤ (w : ℚ) / (h : ℚ) ∧ (w : ℚ) / (h : ℚ) ≤ 3/2
     then 5/100 else 0,
   if w ≠ 0 ∧ h ≠ 0 ∧ 300 ≤ w ∧ w ≤ 800 then 5/100 else 0,
   if strContains imgUrlLower "anime" then 5/100 else 0,
   if strContains imgUrlLower "character" then 3/100 else 0]

/-- Inclusion-pass score before the 1.0 cap: base score plus the bonuses. -/
def inclusionScore (keywordData : CharacterKeyword) (img : EnhancedImageData) : ℚ :=
  keywordData.relevanceScore + (bonusList keywordData img).sum

/-- Scoring of one candidate inside `filterRelevantImages`: the exclusion
pass fires first and forces score `0`; otherwise the capped inclusion score
is stored on the candidate. -/
def scoreImage (keywordData : CharacterKeyword) (img : EnhancedImageData) :
    EnhancedImageData :=
  if isClothingOnlyImage (toLowerStr img.altText) (toLowerStr img.url) then
    { img with relevanceScore := 0 }
  else
    { img with relevanceScore := min (inclusionScore keywordData img) 1 }

/-- `AdvancedImageScraper.filterRelevantImages`: score every candidate, keep
those whose score reaches the configured relevance threshold. -/
def filterRelevantImages (threshold : ℚ) (keywordData : CharacterKeyword)
    (images : List EnhancedImageData) : List EnhancedImageData :=
  (images.map (scoreImage keywordData)).filter
    (fun img => decide (threshold ≤ img.relevanceScore))

/-- Inner accumulation of `searchImages`: add each relevant image unless its
URL is already collected or the keyword target is reached. -/
def collectNewImages (keywordData : CharacterKeyword)
    (images relevant : List EnhancedImageData) : List EnhancedImageData :=
  relevant.foldl
    (fun acc img =>
      if (∀ e ∈ acc, e.url ≠ img.url) ∧ acc.length < keywordData.targetCount then
        acc ++ [img]
      else acc)
    images

/-- The scroll loop of `searchImages`: each batch is the candidate list
extracted from the page after one scroll; the loop stops when the batches
(bounded by `maxScrolls`) run out or the target count is reached. -/
def searchScrollLoop (threshold : ℚ) (keywordData : CharacterKeyword) :
    List (List EnhancedImageData) → List EnhancedImageData → List EnhancedImageData
  | [], images => images
  | batch :: rest, images =>
    if images.length < keywordData.targetCount then
      searchScrollLoop threshold keywordData rest
        (collectNewImages keywordData images (filterRelevantImages threshold keywordData batch))
    else images

/-- `AdvancedImageScraper.searchImages`.  The browser interaction is the
external collaborator: `pageBatches` is either the per-scroll candidate
batches it produced, or the error it threw; the `catch` block of the source
turns any error into an empty result list. -/
def searchImages (threshold : ℚ) (keywordData : CharacterKeyword)
    (pageBatches : Except String (List (List EnhancedImageData))) :
    List EnhancedImageData :=
  match pageBatches with
  | Except.error _ => []
  | Except.ok batches => searchScrollLoop threshold keywordData batches []

/-! ## Keyword distributor model (`KeywordUtils`, src/unnamed/part_002) -/

/-- `KeywordEntry` from the app configuration. -/
structure KeywordEntry where
  primary : String
  variations : List String
  expectedResults : ℕ
  category : String

/-- `KeywordCategory`: a weighted group of keywords. -/
structure KeywordCategory where
  name : String
  description : String
  weight : ℚ
  keywords : List KeywordEntry

/-- One element of the distribution returned by
`KeywordUtils.getWeightedKeywordDistribution`. -/
structure DistributionEntry where
  keyword : KeywordEntry
  targetCount : ℤ
  category : String

/-- `KeywordUtils.getWeightedKeywordDistribution`: per category,
`categoryTarget = Math.floor(targetTotal * weight / totalWeight)`, then
`keywordTarget = Math.floor(categoryTarget / keywords.length)` assigned to
every keyword of the category. -/
def getWeightedKeywordDistribution (targetTotal : ℤ)
    (keywordCategories : List KeywordCategory) : List DistributionEntry :=
  let totalWeight : ℚ := (keywordCategories.map (fun cat => cat.weight)).sum
  keywordCategories.flatMap (fun category =>
    let categoryTarget : ℤ := ⌊(targetTotal : ℚ) * category.weight / totalWeight⌋
    let keywordTarget : ℤ := ⌊(categoryTarget : ℚ) / (category.keywords.length : ℚ)⌋
    category.keywords.map (fun kw =>
      { keyword := kw, targetCount := keywordTarget, category := category.name }))

/-- The `{min,max}` target range of the run configuration
(`AppConfig.targetImageCount`). -/
structure TargetRange where
  min : ℤ
  max : ℤ

/-- The slice of `AppConfig` that the distribution call site reads. -/
structure AppConfig where
  targetImageCount : TargetRange
  keywordCategories : List KeywordCategory

/-- The distribution actually used by a run: `AnimeImageCollectorApp.run`
calls `KeywordUtils.getWeightedKeywordDistribution(this.config.targetImageCount.max,
this.config)` (src/src/AnimeImageCollectorApp.ts lines 127-130). -/
def runKeywordDistribution (config : AppConfig) : List DistributionEntry :=
  getWeightedKeywordDistribution config.targetImageCount.max config.keywordCategories

/-! ## Image processor model (`AdvancedImageProcessor`, src/src/validate-images.ts)

The Sharp JPEG encoder is the external collaborator.  It is embedded as a
function `enc : ℤ → Option β` from the requested quality to the encoded
buffer (`none` models an encoder throw, caught by the search loop); `len`
gives the byte size of a buffer.  The loop encoder `enc` (which uses the
`optimiseScans`/`quantisationTable` options) and the fallback encoder
`encFb` (which does not) are kept separate, mirroring the two `.jpeg(...)`
call sites of `optimizeJpegQuality`. -/

/-- The processing options of `AdvancedImageProcessor` that the pipeline
logic reads. -/
structure JpegQualityBand where
  min : ℤ
  max : ℤ

/-- `ProcessingOptions` (dimension/size/quality slice). -/
structure ProcessingOptions where
  targetWidth : ℕ
  targetHeight : ℕ
  jpegQuality : JpegQualityBand
  maxFileSize : ℕ
  preserveAspectRatio : Bool

/-- Sharp metadata: dimensions may be absent (`undefined`), which the
destructuring `const { width = 0, height = 0 } = metadata` turns into `0`. -/
structure SharpMetadata where
  width : Option ℕ
  height : Option ℕ

/-- The resize/extract geometry produced by `applySmartResize`. -/
structure SmartResizeSpec where
  resizeW : ℤ
  resizeH : ℤ
  left : ℤ
  top : ℤ
  extractW : ℕ
  extractH : ℕ

/-- `AdvancedImageProcessor.applySmartResize`: throws (`none`) on zero
dimensions; with `preserveAspectRatio` it scales by
`max(targetW/width, targetH/height)`, rounds the scaled dimensions, and
center-crops an exactly `targetWidth × targetHeight` region; otherwise it
resizes directly to the target ("fill"). -/
def applySmartResize (options : ProcessingOptions) (width height : ℕ) :
    Option SmartResizeSpec :=
  if width = 0 ∨ height = 0 then none
  else if options.preserveAspectRatio then
    let scaleX : ℚ := (options.targetWidth : ℚ) / (width : ℚ)
    let scaleY : ℚ := (options.targetHeight : ℚ) / (height : ℚ)
    let scale : ℚ := max scaleX scaleY
    let newWidth : ℤ := jsRound ((width : ℚ) * scale)
    let newHeight : ℤ := jsRound ((height : ℚ) * scale)
    some { resizeW := newWidth, resizeH := newHeight,
           left := max 0 (jsRound (((newWidth - options.targetWidth : ℤ) : ℚ) / 2)),
           top := max 0 (jsRound (((newHeight - options.targetHeight : ℤ) : ℚ) / 2)),
           extractW := options.targetWidth, extractH := options.targetHeight }
  else
    some { resizeW := options.targetWidth, resizeH := options.targetHeight,
           left := 0, top := 0,
           extractW := options.targetWidth, extractH := options.targetHeight }

/-- The binary-search loop of `optimizeJpegQuality`.  `mid` is
`Math.round((low+high)/2)`, which on integers is `(low+high+1)/2` with
floor division; a successful encode within `maxSize` records the buffer as
best and searches above, any other outcome (including an encoder throw)
searches below.  The loop runs while `low ≤ high`; the fuel argument is an
upper bound on the remaining iterations, consumed once per iteration, and
the callers supply enough fuel for the whole band. -/
def optQualityLoop {β : Type} (len : β → ℕ) (enc : ℤ → Option β) (maxSize : ℕ) :
    ℕ → ℤ → ℤ → Option (β × ℤ) → Option (β × ℤ)
  | 0, _, _, best => best
  | fuel + 1, lowQuality, highQuality, best =>
    if lowQuality ≤ highQuality then
      let currentQuality := (lowQuality + highQuality + 1) / 2
      match enc currentQuality with
      | some buffer =>
        if len buffer ≤ maxSize then
          optQualityLoop len enc maxSize fuel (currentQuality + 1) highQuality
            (some (buffer, currentQuality))
        else
          optQualityLoop len enc maxSize fuel lowQuality (currentQuality - 1) best
      | none =>
        optQualityLoop len enc maxSize fuel lowQuality (currentQuality - 1) best
    else best

/-- `AdvancedImageProcessor.optimizeJpegQuality`: binary search over the
quality band; if no probed quality produced a buffer within `maxSize`, the
fallback re-encodes at the band minimum and the result is returned (after a
logged warning) even when it still exceeds `maxSize`.  `none` models the
fallback encode itself throwing. -/
def optimizeJpegQuality {β : Type} (len : β → ℕ) (enc encFb : ℤ → Option β)
    (qmin qmax : ℤ) (maxSize : ℕ) : Option (β × ℤ) :=
  match optQualityLoop len enc maxSize (qmax + 1 - qmin).toNat qmin qmax none with
  | some best => some best
  | none => (encFb qmin).map (fun buffer => (buffer, qmin))

/-- The result record built by `processImage`: `width`/`height` are reported
as the configured targets, `quality` is the one chosen by
`optimizeJpegQuality`, `processedSize` is the size of the written file. -/
structure ProcessedImageInfo where
  width : ℕ
  height : ℕ
  format : String
  quality : ℤ
  processedSize : ℕ

/-- `AdvancedImageProcessor.processImage`: smart resize (its throw on
unreadable dimensions aborts the call), then quality optimization, then the
buffer is written to disk and the result record is reported. -/
def processImage {β : Type} (len : β → ℕ) (options : ProcessingOptions)
    (metadata : SharpMetadata) (enc encFb : ℤ → Option β) :
    Option ProcessedImageInfo :=
  (applySmartResize options (metadata.width.getD 0) (metadata.height.getD 0)).bind
    (fun _ =>
      (optimizeJpegQuality len enc encFb options.jpegQuality.min
          options.jpegQuality.max options.maxFileSize).map
        (fun best =>
          { width := options.targetWidth, height := options.targetHeight,
            format := "jpeg", quality := best.2, processedSize := len best.1 }))

/-! ## Database model (`AdvancedDatabaseManager`, src/src/AdvancedDatabaseManager.ts)

The schema (`initializeSchema`) declares `original_url TEXT NOT NULL UNIQUE`
plus `CREATE UNIQUE INDEX idx_images_url ON images(original_url)`.  The
SQLite engine is modelled explicitly: a plain `INSERT` of a duplicate URL
raises an error whose message contains `UNIQUE constraint`, an
`INSERT OR IGNORE` silently skips the row, and `lastInsertRowid` keeps the
id of the last row actually inserted.  Other run-time database failures are
injected through an optional `fault` parameter. -/

/-- `ImageRecord` (the TypeScript interface; `Date` fields are carried as
their ISO strings). -/
structure ImageRecord where
  keyword : String
  category : String
  subcategory : String
  originalUrl : String
  altText : String
  localPath : String
  fileSize : ℕ
  width : ℕ
  height : ℕ
  format : String
  jpegQuality : Option ℕ
  relevanceScore : ℚ
  collectedAt : String
  processedAt : Option String
  processingStatus : String

/-- One persisted row of the `images` table. -/
structure DbRow where
  id : ℤ
  keyword : String
  category : String
  subcategory : String
  originalUrl : String
  altText : String
  localPath : String
  fileSize : ℕ
  width : ℕ
  height : ℕ
  format : String
  jpegQuality : ℕ
  relevanceScore : ℚ
  collectedAt : String
  processedAt : Option String
  processingStatus : String

/-- The bound parameters of the prepared insert: `record.altText || ''` keeps
strings unchanged, and `record.jpegQuality || 75` replaces an absent or zero
quality by 75. -/
def rowOfRecord (id : ℤ) (record : ImageRecord) : DbRow :=
  { id := id
    keyword := record.keyword
    category := record.category
    subcategory := record.subcategory
    originalUrl := record.originalUrl
    altText := record.altText
    localPath := record.localPath
    fileSize := record.fileSize
    width := record.width
    height := record.height
    format := record.format
    jpegQuality := match record.jpegQuality with
      | some q => if q = 0 then 75 else q
      | none => 75
    relevanceScore := record.relevanceScore
    collectedAt := record.collectedAt
    processedAt := record.processedAt
    processingStatus := record.processingStatus }

/-- An error raised by the database layer; the TypeScript code only ever
inspects its message. -/
structure SqlError where
  message : String

/-- The connection state: persisted rows, the AUTOINCREMENT counter, and
`lastInsertRowid`. -/
structure DbState where
  rows : List DbRow
  nextId : ℤ
  lastInsertRowid : ℤ

/-- A freshly initialized database (after `initializeSchema`). -/
def initialDb : DbState := { rows := [], nextId := 1, lastInsertRowid := 0 }

/-- SQLite running a plain `INSERT INTO images ...`: a duplicate
`original_url` violates the unique index and raises; otherwise the row is
appended and its id returned. -/
def sqliteTryInsert (db : DbState) (record : ImageRecord) :
    DbState × Except SqlError ℤ :=
  if db.rows.any (fun row => row.originalUrl == record.originalUrl) then
    (db, Except.error { message := "UNIQUE constraint failed: images.original_url" })
  else
    ({ rows := db.rows ++ [rowOfRecord db.nextId record],
       nextId := db.nextId + 1,
       lastInsertRowid := db.nextId },
     Except.ok db.nextId)

/-- SQLite running `INSERT OR IGNORE INTO images ...`: a duplicate
`original_url` is skipped without an error. -/
def sqliteInsertOrIgnore (db : DbState) (record : ImageRecord) : DbState :=
  if db.rows.any (fun row => row.originalUrl == record.originalUrl) then db
  else
    { rows := db.rows ++ [rowOfRecord db.nextId record],
      nextId := db.nextId + 1,
      lastInsertRowid := db.nextId }

/-- `AdvancedDatabaseManager.insertImage`: run the insert (or fail with an
injected infrastructure fault); the `catch` block converts an error whose
message contains `UNIQUE constraint` into the sentinel id `-1` and rethrows
everything else. -/
def insertImage (db : DbState) (record : ImageRecord) (fault : Option SqlError) :
    DbState × Except SqlError ℤ :=
  let run : DbState × Except SqlError ℤ :=
    match fault with
    | some e => (db, Except.error e)
    | none => sqliteTryInsert db record
  match run with
  | (db2, Except.ok id) => (db2, Except.ok id)
  | (db2, Except.error e) =>
    if strContains e.message "UNIQUE constraint" then (db2, Except.ok (-1))
    else (db2, Except.error e)

/-- `AdvancedDatabaseManager.insertImagesBatch`: an `INSERT OR IGNORE` per
record inside one transaction, collecting `lastInsertRowid` after each
statement; a faulted transaction rolls back and the error is rethrown. -/
def insertImagesBatch (db : DbState) (records : List ImageRecord)
    (fault : Option SqlError) : DbState × Except SqlError (List ℤ) :=
  match fault with
  | some e => (db, Except.error e)
  | none =>
    let final := records.foldl
      (fun (acc : DbState × List ℤ) record =>
        let db2 := sqliteInsertOrIgnore acc.1 record
        (db2, acc.2 ++ [db2.lastInsertRowid]))
      (db, [])
    (final.1, Except.ok final.2)

/-- One store operation of a run: a single insert or a batch insert, each
with an optional injected infrastructure fault. -/
inductive DbOp where
  | single (record : ImageRecord) (fault : Option SqlError)
  | batch (records : List ImageRecord) (fault : Option SqlError)

/-- Apply one operation to the store (results are reported to the caller but
do not feed back into the state). -/
def applyOp (db : DbState) : DbOp → DbState
  | DbOp.single record fault => (insertImage db record fault).1
  | DbOp.batch records fault => (insertImagesBatch db records fault).1

/-- Apply a whole sequence of store operations. -/
def applyOps (db : DbState) (ops : List DbOp) : DbState := ops.foldl applyOp db

/-- The store invariant: no two persisted rows share an `originalUrl`. -/
def UrlsUnique (db : DbState) : Prop :=
  db.rows.Pairwise (fun a b => a.originalUrl ≠ b.originalUrl)

/-! ## Concrete instances used by the per-claim witnesses and counterexamples -/

/-- A keyword job used to exercise the scorer (C2). -/
def c2keyword : CharacterKeyword :=
  { keyword := "anime schoolgirl character uniform", category := "female",
    subcategory := "student", targetCount := 200, relevanceScore := 95/100 }

/-- The spec scenario candidate: alt text `mannequin display outfit only` (C2). -/
def c2image : EnhancedImageData :=
  { url := "https://example.com/x.jpg", altText := "mannequin display outfit only",
    keyword := "anime schoolgirl character uniform", category := "female",
    subcategory := "student", relevanceScore := 0, width := some 500,
    height := some 500, fileSize := none }

/-- A keyword job with base score 0 and no incidental matches (C8). -/
def c8keyword : CharacterKeyword :=
  { keyword := "zzz", category := "qq", subcategory := "ww",
    targetCount := 1, relevanceScore := 0 }

/-- A candidate whose only inclusion signal is the character indicator `girl`
in the alt text (C8). -/
def c8image : EnhancedImageData :=
  { url := "u", altText := "girl", keyword := "zzz", category := "qq",
    subcategory := "ww", relevanceScore := 0, width := none, height := none,
    fileSize := none }

/-- The spec scenario configuration: global target `{min:100, max:150}`, two
categories weighted 2:1, two keywords each (C7). -/
def c7config : AppConfig :=
  { targetImageCount := { min := 100, max := 150 },
    keywordCategories :=
      [{ name := "Category A", description := "first", weight := 2,
         keywords :=
           [{ primary := "anime male character", variations := [],
              expectedResults := 200, category := "male" },
            { primary := "anime warrior male", variations := [],
              expectedResults := 150, category := "male" }] },
       { name := "Category B", description := "second", weight := 1,
         keywords :=
           [{ primary := "anime female character", variations := [],
              expectedResults := 200, category := "female" },
            { primary := "anime warrior female", variations := [],
              expectedResults := 150, category := "female" }] }] }

/-- A small weighted configuration used to exercise the distributor (C4). -/
def c4categories : List KeywordCategory :=
  [{ name := "Fantasy Characters", description := "fantasy", weight := 3/2,
     keywords :=
       [{ primary := "anime elf character", variations := [],
          expectedResults := 100, category := "fantasy" }] },
   { name := "Male Characters", description := "male", weight := 2,
     keywords :=
       [{ primary := "anime male character", variations := [],
          expectedResults := 200, category := "male" },
        { primary := "anime student boy", variations := [],
          expectedResults := 180, category := "male" }] }]

/-- Processing options matching `COLLECTION_CONFIG` (500×500, quality band
50-80, 50KB ceiling). -/
def c1options : ProcessingOptions :=
  { targetWidth := 500, targetHeight := 500,
    jpegQuality := { min := 50, max := 80 }, maxFileSize := 50000,
    preserveAspectRatio := true }

/-- An encoder whose output is 60000 bytes at every quality: even the band
minimum exceeds the 50KB ceiling (C1).  Buffers are represented by their
byte count. -/
def c1enc : ℤ → Option ℕ := fun _ => some 60000

/-- The result record that `processImage` reports for `c1enc` (C1). -/
def c1info : ProcessedImageInfo :=
  { width := 500, height := 500, format := "jpeg", quality := 50,
    processedSize := 60000 }

/-- A monotone encoder: 40000 bytes up to quality 55, 60000 bytes above (C5). -/
def c5enc : ℤ → Option ℕ := fun q => some (if q ≤ 55 then 40000 else 60000)

/-- An encoder whose output is 45000 bytes at every quality, against a
40000-byte ceiling (C6). -/
def c6enc : ℤ → Option ℕ := fun _ => some 45000

/-- A record as the pipeline persists it (C3). -/
def c3record : ImageRecord :=
  { keyword := "anime schoolgirl character uniform", category := "female",
    subcategory := "student",
    originalUrl := "https://img.example.com/a.jpg",
    altText := "anime girl", localPath := "female/student/a_001.jpg",
    fileSize := 41234, width := 500, height := 500, format := "jpeg",
    jpegQuality := some 72, relevanceScore := 95/100,
    collectedAt := "2024-01-01T00:00:00.000Z", processedAt := none,
    processingStatus := "completed" }

/-- A store that already holds `c3record` (C3). -/
def c3db : DbState :=
  { rows := [rowOfRecord 1 c3record], nextId := 2, lastInsertRowid := 1 }

/-- An operation sequence that submits the same URL twice, alone and in a
batch, with an unrelated record in between (C3). -/
def c3ops : List DbOp :=
  [DbOp.single c3record none,
   DbOp.batch [c3record,
     { c3record with originalUrl := "https://img.example.com/b.jpg",
                     localPath := "female/student/a_002.jpg" }] none,
   DbOp.single c3record none]

/-- A record whose URL collides with the row already in `c3db`-like
stores (C10). -/
def c10record : ImageRecord :=
  { c3record with localPath := "female/student/a_003.jpg" }

/-- A store holding one row with the same URL as `c10record` (C10). -/
def c10db : DbState :=
  { rows := [rowOfRecord 1 c3record], nextId := 2, lastInsertRowid := 1 }

/-- A non-unique-constraint database failure (C10). -/
def c10error : SqlError := { message := "SQLITE_IOERR: disk I/O error" }

/-! ## Helper lemmas -/

/-- Scoring leaves the URL of a candidate unchanged. -/
theorem scoreImage_url (keywordData : CharacterKeyword) (img : EnhancedImageData) :
    (scoreImage keywordData img).url = img.url := by
  unfold scoreImage
  split <;> rfl

/-- Scoring leaves the alt text of a candidate unchanged. -/
theorem scoreImage_altText (keywordData : CharacterKeyword) (img : EnhancedImageData) :
    (scoreImage keywordData img).altText = img.altText := by
  unfold scoreImage
  split <;> rfl

/-- Every member of a filtered result reaches the threshold and is the scored
version of an input candidate. -/
theorem mem_filterRelevantImages {threshold : ℚ} {keywordData : CharacterKeyword}
    {images : List EnhancedImageData} {y : EnhancedImageData}
    (hy : y ∈ filterRelevantImages threshold keywordData images) :
    threshold ≤ y.relevanceScore ∧ ∃ x ∈ images, y = scoreImage keywordData x := by
  unfold filterRelevantImages at hy
  rcases List.mem_filter.mp hy with ⟨hmem, hdec⟩
  refine ⟨of_decide_eq_true hdec, ?_⟩
  rcases List.mem_map.mp hmem with ⟨x, hx, hxy⟩
  exact ⟨x, hx, hxy.symm⟩

/-- A candidate that trips the exclusion pass is scored `0`. -/
theorem scoreImage_of_clothingOnly {keywordData : CharacterKeyword}
    {img : EnhancedImageData}
    (hcl : isClothingOnlyImage (toLowerStr img.altText) (toLowerStr img.url) = true) :
    (scoreImage keywordData img).relevanceScore = 0 := by
  unfold scoreImage
  rw [if_pos hcl]

/-- Generic fold invariant: a step that preserves `P` whenever the consumed
element satisfies `Q` preserves `P` across the whole fold. -/
theorem foldl_preserves {α σ : Type} (P : σ → Prop) (Q : α → Prop)
    (f : σ → α → σ) (hstep : ∀ s a, P s → Q a → P (f s a)) :
    ∀ (l : List α) (s : σ), P s → (∀ a ∈ l, Q a) → P (l.foldl f s) := by
  intro l
  induction l with
  | nil => intro s hs _; exact hs
  | cons a rest ih =>
    intro s hs hq
    rw [List.foldl_cons]
    exact ih (f s a) (hstep s a hs (hq a (List.mem_cons_self a rest)))
      (fun b hb => hq b (List.mem_cons_of_mem a hb))

/-- The accumulation step of `searchImages` preserves URL-distinctness, the
target-count bound, and the threshold bound on scores. -/
theorem collectNewImages_inv (threshold : ℚ) (keywordData : CharacterKeyword)
    (images relevant : List EnhancedImageData)
    (h1 : images.Pairwise (fun a b => a.url ≠ b.url))
    (h2 : images.length ≤ keywordData.targetCount)
    (h3 : ∀ i ∈ images, threshold ≤ i.relevanceScore)
    (h4 : ∀ i ∈ relevant, threshold ≤ i.relevanceScore) :
    (collectNewImages keywordData images relevant).Pairwise (fun a b => a.url ≠ b.url) ∧
    (collectNewImages keywordData images relevant).length ≤ keywordData.targetCount ∧
    ∀ i ∈ collectNewImages keywordData images relevant, threshold ≤ i.relevanceScore := by
  unfold collectNewImages
  refine foldl_preserves
    (fun acc => acc.Pairwise (fun a b => a.url ≠ b.url) ∧
      acc.length ≤ keywordData.targetCount ∧
      ∀ i ∈ acc, threshold ≤ i.relevanceScore)
    (fun i => threshold ≤ i.relevanceScore) _ ?_ relevant images ⟨h1, h2, h3⟩ h4
  intro acc img ⟨hp, hl, hs⟩ hq
  split
  · rename_i hc
    refine ⟨?_, ?_, ?_⟩
    · rw [List.pairwise_append]
      exact ⟨hp, List.pairwise_singleton _ _,
        fun a ha b hb => by rw [List.mem_singleton] at hb; subst hb; exact hc.1 a ha⟩
    · rw [List.length_append, List.length_singleton]
      omega
    · intro i hi
      rcases List.mem_append.mp hi with h | h
      · exact hs i h
      · rw [List.mem_singleton] at h; subst h; exact hq
  · exact ⟨hp, hl, hs⟩

/-- The scroll loop of `searchImages` preserves the collection invariant. -/
theorem searchScrollLoop_inv (threshold : ℚ) (keywordData : CharacterKeyword) :
    ∀ (batches : List (List EnhancedImageData)) (images : List EnhancedImageData),
    images.Pairwise (fun a b => a.url ≠ b.url) →
    images.length ≤ keywordData.targetCount →
    (∀ i ∈ images, threshold ≤ i.relevanceScore) →
    (searchScrollLoop threshold keywordData batches images).Pairwise
      (fun a b => a.url ≠ b.url) ∧
    (searchScrollLoop threshold keywordData batches images).length ≤
      keywordData.targetCount ∧
    ∀ i ∈ searchScrollLoop threshold keywordData batches images,
      threshold ≤ i.relevanceScore := by
  intro batches
  induction batches with
  | nil => intro images h1 h2 h3; exact ⟨h1, h2, h3⟩
  | cons batch rest ih =>
    intro images h1 h2 h3
    rw [searchScrollLoop]
    split
    · have hrel : ∀ i ∈ filterRelevantImages threshold keywordData batch,
          threshold ≤ i.relevanceScore :=
        fun i hi => (mem_filterRelevantImages hi).1
      have hc := collectNewImages_inv threshold keywordData images
        (filterRelevantImages threshold keywordData batch) h1 h2 h3 hrel
      exact ih _ hc.1 hc.2.1 hc.2.2
    · exact ⟨h1, h2, h3⟩

/-! ## Claim theorems: scraper -/

/-- C2: a candidate whose lowercased alt text or URL trips the clothing-only
exclusion lexicon is scored `0` and, for any positive relevance threshold,
is absent from the filtered result (indeed no excluded candidate survives
the filter), regardless of any bonuses it would otherwise earn. -/
theorem clothingOnly_candidate_rejected (threshold : ℚ)
    (keywordData : CharacterKeyword) (img : EnhancedImageData)
    (images : List EnhancedImageData) (hth : 0 < threshold)
    (hcl : isClothingOnlyImage (toLowerStr img.altText) (toLowerStr img.url) = true) :
    (scoreImage keywordData img).relevanceScore = 0 ∧
    scoreImage keywordData img ∉ filterRelevantImages threshold keywordData images ∧
    ∀ y ∈ filterRelevantImages threshold keywordData images,
      isClothingOnlyImage (toLowerStr y.altText) (toLowerStr y.url) = false := by
  have h0 : (scoreImage keywordData img).relevanceScore = 0 :=
    scoreImage_of_clothingOnly hcl
  refine ⟨h0, ?_, ?_⟩
  · intro hmem
    have hle := (mem_filterRelevantImages hmem).1
    rw [h0] at hle
    exact absurd hle (not_le.mpr hth)
  · intro y hy
    rcases mem_filterRelevantImages hy with ⟨hle, x, hx, rfl⟩
    by_contra hcl2
    rw [Bool.not_eq_false] at hcl2
    rw [scoreImage_altText, scoreImage_url] at hcl2
    rw [scoreImage_of_clothingOnly hcl2] at hle
    exact absurd hle (not_le.mpr hth)

/-- C2 witness: the spec scenario candidate (alt text
`mannequin display outfit only`) is scored `0` and rejected at the
recommended threshold 0.85. -/
theorem clothingOnly_candidate_rejected_witness :
    (scoreImage c2keyword c2image).relevanceScore = 0 ∧
    scoreImage c2keyword c2image ∉ filterRelevantImages (85/100) c2keyword [c2image] := by
  have h := clothingOnly_candidate_rejected (85/100) c2keyword c2image [c2image]
    (by norm_num) (by decide)
  exact ⟨h.1, h.2.1⟩

/-- C8 counterexample: for a candidate whose alt text is `girl`, the
character-indicator bonus contributes `0.15` to the score, which exceeds
the claimed per-bonus bound of `0.05`. -/
theorem inclusion_bonus_exceeds_claimed_bound :
    ((15 : ℚ)/100) ∈ bonusList c8keyword c8image ∧
    ¬ ((15 : ℚ)/100 ≤ 5/100) ∧
    (scoreImage c8keyword c8image).relevanceScore = 15/100 := by
  have h1 : hasCharacterIndicators (toLowerStr c8image.altText)
      (toLowerStr c8image.url) = true := by decide
  have h2 : strContains (toLowerStr c8image.altText)
      (headWord (toLowerStr c8keyword.keyword)) = false := by decide
  have h3 : strContains (toLowerStr c8image.altText) "anime" = false := by decide
  have h4 : strContains (toLowerStr c8image.altText) "character" = false := by decide
  have h5 : strContains (toLowerStr c8image.altText) c8keyword.category = false := by
    decide
  have h6 : strContains (toLowerStr c8image.altText) c8keyword.subcategory = false := by
    decide
  have h7 : strContains (toLowerStr c8image.url) "anime" = false := by decide
  have h8 : strContains (toLowerStr c8image.url) "character" = false := by decide
  have hcl : isClothingOnlyImage (toLowerStr c8image.altText)
      (toLowerStr c8image.url) = false := by decide
  have hb : bonusList c8keyword c8image = [15/100, 0, 0, 0, 0, 0, 0, 0, 0, 0] := by
    rw [bonusList]
    simp only [h1, h2, h3, h4, h5, h6, h7, h8, if_true, if_false]
    norm_num [c8image]
  refine ⟨by rw [hb]; exact List.mem_cons_self _ _, by norm_num, ?_⟩
  rw [scoreImage, if_neg (by rw [hcl]; exact Bool.false_ne_true), inclusionScore, hb]
  norm_num [c8keyword]

/-- C8 (amended): every additive bonus of the inclusion pass is at most 0.15
(the character-indicator bonus is 0.15 and the keyword-match bonus 0.10; the
remaining bonuses are at most 0.05), and the resulting score is capped at 1. -/
theorem inclusion_bonuses_bounded (keywordData : CharacterKeyword)
    (img : EnhancedImageData) :
    (∀ bonus ∈ bonusList keywordData img, bonus ≤ 15/100) ∧
    (scoreImage keywordData img).relevanceScore ≤ 1 := by
  constructor
  · intro bonus hb
    rw [bonusList] at hb
    simp only [List.mem_cons, List.not_mem_nil, or_false] at hb
    rcases hb with h|h|h|h|h|h|h|h|h|h <;> subst h <;> split <;> norm_num
  · rw [scoreImage]
    split
    · show (0 : ℚ) ≤ 1
      norm_num
    · exact min_le_right _ _

/-- C8 witness: the bonus bound and the cap, instantiated at the concrete
candidate whose bonus list is `[0.15, 0, ..., 0]`. -/
theorem inclusion_bonuses_bounded_witness :
    ((0 : ℚ) ≤ 15/100) ∧ (scoreImage c8keyword c8image).relevanceScore ≤ 1 := by
  have h := inclusion_bonuses_bounded c8keyword c8image
  refine ⟨h.1 0 ?_, h.2⟩
  have h3 : strContains (toLowerStr c8image.altText) "anime" = false := by decide
  rw [bonusList]
  simp only [h3, if_false, List.mem_cons]
  tauto

/-- C9: for every keyword job and every outcome of the page interaction, the
list returned by `searchImages` has pairwise-distinct URLs, has length at
most the keyword target count, and only contains images whose relevance
score reaches the threshold; a page error yields the empty list instead of
a propagated exception. -/
theorem searchImages_sound (threshold : ℚ) (keywordData : CharacterKeyword)
    (pageBatches : Except String (List (List EnhancedImageData))) :
    (searchImages threshold keywordData pageBatches).Pairwise
      (fun a b => a.url ≠ b.url) ∧
    (searchImages threshold keywordData pageBatches).length ≤
      keywordData.targetCount ∧
    (∀ img ∈ searchImages threshold keywordData pageBatches,
      threshold ≤ img.relevanceScore) ∧
    (∀ errorMessage : String,
      searchImages threshold keywordData (Except.error errorMessage) = []) := by
  refine ⟨?_, ?_, ?_, fun _ => rfl⟩ <;>
  · cases pageBatches with
    | error e => simp [searchImages]
    | ok batches =>
      have h := searchScrollLoop_inv threshold keywordData batches []
        (List.Pairwise.nil) (Nat.zero_le _) (fun i hi => absurd hi (List.not_mem_nil i))
      first
      | exact h.1
      | exact h.2.1
      | exact h.2.2

/-! ## Claim theorems: keyword distributor -/

/-- Summing a mapped flatMap is summing the per-group mapped sums. -/
theorem sum_map_flatMap {α γ : Type} (f : α → List γ) (g : γ → ℤ) :
    ∀ l : List α, ((l.flatMap f).map g).sum = (l.map (fun a => ((f a).map g).sum)).sum := by
  intro l
  induction l with
  | nil => rfl
  | cons a rest ih =>
    rw [List.flatMap_cons, List.map_append, List.sum_append, List.map_cons,
      List.sum_cons, ih]

/-- Summing a constant over a list multiplies it by the length. -/
theorem sum_map_const_int {γ : Type} (z : ℤ) :
    ∀ l : List γ, (l.map (fun _ => z)).sum = (l.length : ℤ) * z := by
  intro l
  induction l with
  | nil => simp
  | cons a rest ih =>
    rw [List.map_cons, List.sum_cons, ih, List.length_cons]
    push_cast
    ring

/-- Floors are superadditive. -/
theorem floor_add_floor_le (a b : ℚ) : ⌊a⌋ + ⌊b⌋ ≤ ⌊a + b⌋ := by
  rw [Int.le_floor]
  push_cast
  exact add_le_add (Int.floor_le a) (Int.floor_le b)

/-- Splitting an even floor division over the keywords of a category never
exceeds the category target. -/
theorem length_mul_floor_div_le (ct : ℤ) (hct : 0 ≤ ct) (n : ℕ) :
    (n : ℤ) * ⌊(ct : ℚ) / (n : ℚ)⌋ ≤ ct := by
  rcases Nat.eq_zero_or_pos n with h0 | hpos
  · subst h0
    simpa using hct
  · have hn : (0 : ℚ) < (n : ℚ) := by exact_mod_cast hpos
    have h1 : (n : ℚ) * (⌊(ct : ℚ) / (n : ℚ)⌋ : ℚ) ≤ (n : ℚ) * ((ct : ℚ) / (n : ℚ)) :=
      mul_le_mul_of_nonneg_left (Int.floor_le _) (le_of_lt hn)
    have h2 : (n : ℚ) * ((ct : ℚ) / (n : ℚ)) = (ct : ℚ) := by
      field_simp
    rw [h2] at h1
    exact_mod_cast h1

/-- The sum of the per-category floored shares never exceeds the floored
total share. -/
theorem sum_floor_shares_le (T W : ℚ) :
    ∀ weights : List ℚ,
      ((weights.map (fun w => ⌊T * w / W⌋)).sum ≤ ⌊T * weights.sum / W⌋) := by
  intro weights
  induction weights with
  | nil => simp
  | cons w rest ih =>
    rw [List.map_cons, List.sum_cons, List.sum_cons]
    calc ⌊T * w / W⌋ + ((rest.map (fun w => ⌊T * w / W⌋)).sum)
        ≤ ⌊T * w / W⌋ + ⌊T * rest.sum / W⌋ := by omega
      _ ≤ ⌊T * w / W + T * rest.sum / W⌋ := floor_add_floor_le _ _
      _ = ⌊T * (w + rest.sum) / W⌋ := by rw [div_add_div_same, mul_add]

/-- C4: for every configuration with a non-empty category list, positive
weights and at least one keyword per category, and every non-negative
global target, the per-keyword targets of `getWeightedKeywordDistribution`
sum to at most the global target. -/
theorem distribution_never_overshoots (targetTotal : ℤ)
    (keywordCategories : List KeywordCategory)
    (hT : 0 ≤ targetTotal) (hne : keywordCategories ≠ [])
    (hw : ∀ c ∈ keywordCategories, 0 < c.weight)
    (_hk : ∀ c ∈ keywordCategories, c.keywords ≠ []) :
    ((getWeightedKeywordDistribution targetTotal keywordCategories).map
      (fun e => e.targetCount)).sum ≤ targetTotal := by
  have hW : 0 < (keywordCategories.map (fun cat => cat.weight)).sum := by
    apply List.sum_pos
    · intro x hx
      rcases List.mem_map.mp hx with ⟨c, hc, rfl⟩
      exact hw c hc
    · exact fun h => hne (by simpa using (List.map_eq_nil_iff.mp h))
  rw [getWeightedKeywordDistribution, sum_map_flatMap]
  set W : ℚ := (keywordCategories.map (fun cat => cat.weight)).sum with hWdef
  have hstep : ∀ c ∈ keywordCategories,
      (((c.keywords.map (fun kw =>
          ({ keyword := kw,
             targetCount := ⌊((⌊(targetTotal : ℚ) * c.weight / W⌋ : ℤ) : ℚ) /
               (c.keywords.length : ℚ)⌋,
             category := c.name } : DistributionEntry))).map
        (fun e => e.targetCount)).sum) ≤ ⌊(targetTotal : ℚ) * c.weight / W⌋ := by
    intro c hc
    rw [List.map_map]
    have hrw : ((fun e : DistributionEntry => e.targetCount) ∘ (fun kw =>
        ({ keyword := kw,
           targetCount := ⌊((⌊(targetTotal : ℚ) * c.weight / W⌋ : ℤ) : ℚ) /
             (c.keywords.length : ℚ)⌋,
           category := c.name } : DistributionEntry))) = (fun _ =>
        ⌊((⌊(targetTotal : ℚ) * c.weight / W⌋ : ℤ) : ℚ) /
          (c.keywords.length : ℚ)⌋) := rfl
    rw [hrw, sum_map_const_int]
    apply length_mul_floor_div_le
    apply Int.floor_nonneg.mpr
    apply div_nonneg
    · exact mul_nonneg (by exact_mod_cast hT) (le_of_lt (hw c hc))
    · exact le_of_lt hW
  calc (keywordCategories.map (fun c =>
        (((c.keywords.map (fun kw =>
            ({ keyword := kw,
               targetCount := ⌊((⌊(targetTotal : ℚ) * c.weight / W⌋ : ℤ) : ℚ) /
                 (c.keywords.length : ℚ)⌋,
               category := c.name } : DistributionEntry))).map
          (fun e => e.targetCount)).sum))).sum
      ≤ (keywordCategories.map (fun c => ⌊(targetTotal : ℚ) * c.weight / W⌋)).sum :=
        List.sum_le_sum hstep
    _ = ((keywordCategories.map (fun cat => cat.weight)).map
          (fun w => ⌊(targetTotal : ℚ) * w / W⌋)).sum := by rw [List.map_map]; rfl
    _ ≤ ⌊(targetTotal : ℚ) * W / W⌋ := by
        rw [hWdef]
        exact sum_floor_shares_le _ _ _
    _ = targetTotal := by
        rw [mul_div_assoc, div_self (ne_of_gt hW), mul_one, Int.floor_intCast]

/-- C4 witness: the distribution for a concrete two-category configuration
(weights 1.5 and 2) with global target 10 sums to at most 10. -/
theorem distribution_never_overshoots_witness :
    ((getWeightedKeywordDistribution 10 c4categories).map
      (fun e => e.targetCount)).sum ≤ 10 := by
  apply distribution_never_overshoots 10 c4categories (by norm_num)
  · intro h
    simp [c4categories] at h
  · intro c hc
    rw [c4categories] at hc
    simp only [List.mem_cons, List.not_mem_nil, or_false] at hc
    rcases hc with rfl | rfl <;> norm_num
  · intro c hc
    rw [c4categories] at hc
    simp only [List.mem_cons, List.not_mem_nil, or_false] at hc
    rcases hc with rfl | rfl <;> simp

/-- C7 counterexample: with global target `{min:100, max:150}` and two
categories weighted 2:1 with two keywords each, the distribution the run
actually uses (computed from `targetImageCount.max`) sums to 150, not 100. -/
theorem run_distribution_sums_to_150 :
    ((runKeywordDistribution c7config).map (fun e => e.targetCount)).sum = 150 ∧
    ((150 : ℤ) = 100 → False) := by
  constructor
  · norm_num [runKeywordDistribution, c7config, getWeightedKeywordDistribution]
  · decide

/-- C7 (amended): the run computes the distribution from
`targetImageCount.max = 150`, so the per-keyword targets sum to 150 (not
100), split 2:1 between the categories (100 versus 50) and evenly between
the two keywords within each category (50/50 and 25/25). -/
theorem run_distribution_split :
    (runKeywordDistribution c7config).map (fun e => (e.category, e.targetCount)) =
      [("Category A", 50), ("Category A", 50), ("Category B", 25), ("Category B", 25)] := by
  norm_num [runKeywordDistribution, c7config, getWeightedKeywordDistribution]

/-! ## Claim theorems: image processor -/

/-- Every result the binary-search loop returns lies in the enclosing quality
band and fits the byte ceiling (given that the incoming best candidate
does). -/
theorem optQualityLoop_some_mem {β : Type} (len : β → ℕ) (enc : ℤ → Option β)
    (maxSize : ℕ) (A B : ℤ) :
    ∀ (fuel : ℕ) (lo hi : ℤ) (best : Option (β × ℤ)) (r : β × ℤ),
    A ≤ lo → hi ≤ B →
    (∀ p : β × ℤ, best = some p → A ≤ p.2 ∧ p.2 ≤ B ∧ len p.1 ≤ maxSize) →
    optQualityLoop len enc maxSize fuel lo hi best = some r →
    A ≤ r.2 ∧ r.2 ≤ B ∧ len r.1 ≤ maxSize := by
  intro fuel
  induction fuel with
  | zero =>
    intro lo hi best r _ _ hbest hr
    exact hbest r hr
  | succ fuel ih =>
    intro lo hi best r hA hB hbest hr
    simp only [optQualityLoop] at hr
    split at hr
    · rename_i hlh
      split at hr
      · rename_i buffer henc
        split at hr
        · rename_i hfit
          refine ih ((lo + hi + 1) / 2 + 1) hi
            (some (buffer, (lo + hi + 1) / 2)) r (by omega) hB ?_ hr
          intro p hp
          cases hp
          exact ⟨by omega, by omega, hfit⟩
        · exact ih lo ((lo + hi + 1) / 2 - 1) best r hA (by omega) hbest hr
      · exact ih lo ((lo + hi + 1) / 2 - 1) best r hA (by omega) hbest hr
    · exact hbest r hr

/-- Correctness invariant of the binary-search loop: when the encoder is
total on the band `[A, B]` and fitting the byte ceiling is downward closed
(the monotonicity assumption), the loop run on a sub-interval whose outside
has already been settled returns the largest fitting quality of the band,
provided any fitting quality exists. -/
theorem optQualityLoop_correct {β : Type} (len : β → ℕ) (enc : ℤ → Option β)
    (maxSize : ℕ) (A B : ℤ) (b : ℤ → β)
    (henc : ∀ q, A ≤ q → q ≤ B → enc q = some (b q))
    (hdc : ∀ q q2, A ≤ q → q ≤ q2 → q2 ≤ B →
      len (b q2) ≤ maxSize → len (b q) ≤ maxSize) :
    ∀ (fuel : ℕ) (lo hi : ℤ) (best : Option (β × ℤ)),
    (hi + 1 - lo).toNat ≤ fuel →
    A ≤ lo → hi ≤ B → lo ≤ B + 1 →
    ((best = none ∧ lo = A ∧
        ∀ q, hi < q → q ≤ B → ¬ (len (b q) ≤ maxSize)) ∨
     (∃ q0, best = some (b q0, q0) ∧ len (b q0) ≤ maxSize ∧ A ≤ q0 ∧ q0 = lo - 1 ∧
        ∀ q, hi < q → q ≤ B → len (b q) ≤ maxSize → q ≤ q0)) →
    ∀ q, A ≤ q → q ≤ B → len (b q) ≤ maxSize →
    ∃ q0, optQualityLoop len enc maxSize fuel lo hi best = some (b q0, q0) ∧
      len (b q0) ≤ maxSize ∧ A ≤ q0 ∧ q0 ≤ B ∧ q ≤ q0 := by
  intro fuel
  induction fuel with
  | zero =>
    intro lo hi best hfuel hA hB hloB hinv q hq1 hq2 hfit
    have hirange : hi < lo := by omega
    rcases hinv with ⟨hbest, hloA, hnone⟩ | ⟨q0, hbest, hfit0, hA0, hq0, hmax⟩
    · exfalso
      exact hnone q (by omega) hq2 hfit
    · rw [optQualityLoop, hbest]
      refine ⟨q0, rfl, hfit0, hA0, by omega, ?_⟩
      by_cases hqhi : hi < q
      · exact hmax q hqhi hq2 hfit
      · omega
  | succ fuel ih =>
    intro lo hi best hfuel hA hB hloB hinv q hq1 hq2 hfit
    by_cases hlh : lo ≤ hi
    · have hmid1 : lo ≤ (lo + hi + 1) / 2 := by omega
      have hmid2 : (lo + hi + 1) / 2 ≤ hi := by omega
      simp only [optQualityLoop, if_pos hlh,
        henc ((lo + hi + 1) / 2) (by omega) (by omega)]
      by_cases hfitm : len (b ((lo + hi + 1) / 2)) ≤ maxSize
      · rw [if_pos hfitm]
        refine ih ((lo + hi + 1) / 2 + 1) hi
          (some (b ((lo + hi + 1) / 2), (lo + hi + 1) / 2))
          (by omega) (by omega) hB (by omega) ?_ q hq1 hq2 hfit
        refine Or.inr ⟨(lo + hi + 1) / 2, rfl, hfitm, by omega, by omega, ?_⟩
        intro q2 hq2a hq2b hq2fit
        rcases hinv with ⟨_, _, hnone⟩ | ⟨q0, _, _, _, hq0, hmax⟩
        · exact absurd hq2fit (hnone q2 hq2a hq2b)
        · have := hmax q2 hq2a hq2b hq2fit
          omega
      · rw [if_neg hfitm]
        refine ih lo ((lo + hi + 1) / 2 - 1) best
          (by omega) hA (by omega) hloB ?_ q hq1 hq2 hfit
        have hnotAbove : ∀ q2, (lo + hi + 1) / 2 - 1 < q2 → q2 ≤ hi →
            ¬ (len (b q2) ≤ maxSize) := by
          intro q2 hq2a hq2b hq2fit
          exact hfitm (hdc ((lo + hi + 1) / 2) q2 (by omega) (by omega) (by omega) hq2fit)
        rcases hinv with ⟨hbest, hloA, hnone⟩ | ⟨q0, hbest, hfit0, hA0, hq0, hmax⟩
        · refine Or.inl ⟨hbest, hloA, ?_⟩
          intro q2 hq2a hq2b
          by_cases hq2hi : hi < q2
          · exact hnone q2 hq2hi hq2b
          · exact hnotAbove q2 hq2a (by omega)
        · refine Or.inr ⟨q0, hbest, hfit0, hA0, hq0, ?_⟩
          intro q2 hq2a hq2b hq2fit
          by_cases hq2hi : hi < q2
          · exact hmax q2 hq2hi hq2b hq2fit
          · exact absurd hq2fit (hnotAbove q2 hq2a (by omega))
    · simp only [optQualityLoop, if_neg hlh]
      rcases hinv with ⟨hbest, hloA, hnone⟩ | ⟨q0, hbest, hfit0, hA0, hq0, hmax⟩
      · exfalso
        exact hnone q (by omega) hq2 hfit
      · rw [hbest]
        refine ⟨q0, rfl, hfit0, hA0, by omega, ?_⟩
        by_cases hqhi : hi < q
        · exact hmax q hqhi hq2 hfit
        · omega

/-- C5: assuming the encoder is total on the quality band and its output
size is monotonically non-decreasing in the quality, whenever some quality
in `[qmin, qmax]` produces an encoding within `maxSize`, `optimizeJpegQuality`
returns the highest such quality together with the encoding produced at
that quality. -/
theorem optimizeJpegQuality_finds_highest {β : Type} (len : β → ℕ)
    (enc encFb : ℤ → Option β) (qmin qmax : ℤ) (maxSize : ℕ) (b : ℤ → β)
    (henc : ∀ q, qmin ≤ q → q ≤ qmax → enc q = some (b q))
    (hmono : ∀ q q2, qmin ≤ q → q ≤ q2 → q2 ≤ qmax → len (b q) ≤ len (b q2))
    (q : ℤ) (hq1 : qmin ≤ q) (hq2 : q ≤ qmax) (hfit : len (b q) ≤ maxSize) :
    ∃ qstar,
      optimizeJpegQuality len enc encFb qmin qmax maxSize = some (b qstar, qstar) ∧
      qmin ≤ qstar ∧ qstar ≤ qmax ∧ len (b qstar) ≤ maxSize ∧
      ∀ q2, qmin ≤ q2 → q2 ≤ qmax → len (b q2) ≤ maxSize → q2 ≤ qstar := by
  have hdc : ∀ qa qb, qmin ≤ qa → qa ≤ qb → qb ≤ qmax →
      len (b qb) ≤ maxSize → len (b qa) ≤ maxSize :=
    fun qa qb h1 h2 h3 hf => le_trans (hmono qa qb h1 h2 h3) hf
  have hloop := optQualityLoop_correct len enc maxSize qmin qmax b henc hdc
    (qmax + 1 - qmin).toNat qmin qmax none (le_refl _) (le_refl _) (le_refl _)
    (by omega)
    (Or.inl ⟨rfl, rfl, fun q2 h1 h2 _ => absurd (lt_of_lt_of_le h1 h2) (lt_irrefl _)⟩)
  obtain ⟨q0, hr, hfit0, hA0, hB0, _⟩ := hloop q hq1 hq2 hfit
  refine ⟨q0, ?_, hA0, hB0, hfit0, ?_⟩
  · rw [optimizeJpegQuality, hr]
  · intro q2 h1 h2 h3
    obtain ⟨q0b, hrb, _, _, _, hle⟩ := hloop q2 h1 h2 h3
    rw [hr] at hrb
    have hpair := Option.some.inj hrb
    have h5 : q0 = q0b := congrArg Prod.snd hpair
    omega

/-- C5 witness: for the monotone encoder `c5enc` (40000 bytes up to quality
55, 60000 above) with ceiling 50000 over the band `[50, 80]`, the search
returns exactly quality 55 with its 40000-byte encoding. -/
theorem optimizeJpegQuality_finds_highest_witness :
    optimizeJpegQuality (id : ℕ → ℕ) c5enc c5enc 50 80 50000 = some (40000, 55) := by
  have h := optimizeJpegQuality_finds_highest (id : ℕ → ℕ) c5enc c5enc 50 80 50000
    (fun q => if q ≤ 55 then 40000 else 60000)
    (fun q _ _ => rfl)
    (fun q q2 _ h2 _ => by dsimp only [id]; split <;> split <;> omega)
    55 (by omega) (by omega) (by decide)
  obtain ⟨qstar, hr, h1, h2, h3, hmax⟩ := h
  have h55 : 55 ≤ qstar := hmax 55 (by omega) (by omega) (by decide)
  have hle55 : qstar ≤ 55 := by
    by_contra hgt
    dsimp only [id] at h3
    rw [if_neg hgt] at h3
    exact absurd h3 (by decide)
  have hq : qstar = 55 := le_antisymm hle55 h55
  rw [hq] at hr
  rw [hr]
  rfl

/-- C1 (amended): whenever `processImage` completes without throwing (and
the quality band is non-degenerate), the reported output dimensions equal
the configured targets and the chosen quality lies within the band; the
written byte size is at most `maxFileSize` except on the fallback path —
when no probed quality fit, the file is written at the band minimum quality
and may exceed `maxFileSize`. -/
theorem processImage_reported_invariants {β : Type} (len : β → ℕ)
    (options : ProcessingOptions) (metadata : SharpMetadata)
    (enc encFb : ℤ → Option β) (info : ProcessedImageInfo)
    (hband : options.jpegQuality.min ≤ options.jpegQuality.max)
    (h : processImage len options metadata enc encFb = some info) :
    info.width = options.targetWidth ∧ info.height = options.targetHeight ∧
    options.jpegQuality.min ≤ info.quality ∧
    info.quality ≤ options.jpegQuality.max ∧
    (info.processedSize ≤ options.maxFileSize ∨
      info.quality = options.jpegQuality.min) := by
  rw [processImage] at h
  rcases Option.bind_eq_some.mp h with ⟨spec, _, h2⟩
  rcases Option.map_eq_some'.mp h2 with ⟨best, hbest, hinfo⟩
  subst hinfo
  refine ⟨rfl, rfl, ?_⟩
  rw [optimizeJpegQuality] at hbest
  cases hloop : optQualityLoop len enc options.maxFileSize
      (options.jpegQuality.max + 1 - options.jpegQuality.min).toNat
      options.jpegQuality.min options.jpegQuality.max none with
  | some r =>
    rw [hloop] at hbest
    have hbr : best = r := (Option.some.inj hbest).symm
    subst hbr
    have hmem := optQualityLoop_some_mem len enc options.maxFileSize
      options.jpegQuality.min options.jpegQuality.max _
      options.jpegQuality.min options.jpegQuality.max none best
      (le_refl _) (le_refl _) (fun p hp => by cases hp) hloop
    exact ⟨hmem.1, hmem.2.1, Or.inl hmem.2.2⟩
  | none =>
    rw [hloop] at hbest
    rcases Option.map_eq_some'.mp hbest with ⟨buffer, _, hpair⟩
    subst hpair
    exact ⟨le_refl _, hband, Or.inr rfl⟩

/-- C1 counterexample: with the collection configuration (band `[50, 80]`,
50000-byte ceiling) and an encoder producing 60000 bytes at every quality,
`processImage` completes without throwing and reports success, yet the
written file is 60000 bytes, above the configured ceiling. -/
theorem processImage_success_oversized :
    processImage (id : ℕ → ℕ) c1options { width := some 800, height := some 600 }
      c1enc c1enc = some c1info ∧
    ¬ (c1info.processedSize ≤ c1options.maxFileSize) := by
  constructor
  · rfl
  · decide

/-- C1 witness: the amended invariants, instantiated at the concrete
oversized run that exercises the fallback path. -/
theorem processImage_reported_invariants_witness :
    c1info.width = c1options.targetWidth ∧
    c1info.height = c1options.targetHeight ∧
    c1options.jpegQuality.min ≤ c1info.quality ∧
    c1info.quality ≤ c1options.jpegQuality.max ∧
    (c1info.processedSize ≤ c1options.maxFileSize ∨
      c1info.quality = c1options.jpegQuality.min) :=
  processImage_reported_invariants (id : ℕ → ℕ) c1options
    { width := some 800, height := some 600 } c1enc c1enc c1info
    (by decide) rfl

/-- C6: when even the band-minimum quality exceeds the byte ceiling
(encoder `c6enc`: 45000 bytes at every quality, ceiling 40000),
`optimizeJpegQuality` reports success carrying the oversized min-quality
buffer instead of returning an explicit size-floor error. -/
theorem optimizeJpegQuality_sizeFloor_returns_success :
    optimizeJpegQuality (id : ℕ → ℕ) c6enc c6enc 50 80 40000 = some (45000, 50) ∧
    ¬ ((45000 : ℕ) ≤ 40000) := by
  constructor
  · rfl
  · decide

/-! ## Claim theorems: database -/

/-- Appending a row whose URL is absent keeps the uniqueness invariant. -/
theorem pairwise_url_append (rows : List DbRow) (row : DbRow)
    (h : rows.Pairwise (fun a b => a.originalUrl ≠ b.originalUrl))
    (hn : rows.any (fun r => r.originalUrl == row.originalUrl) = false) :
    (rows ++ [row]).Pairwise (fun a b => a.originalUrl ≠ b.originalUrl) := by
  rw [List.pairwise_append]
  refine ⟨h, List.pairwise_singleton _ _, ?_⟩
  intro a ha b hb
  rw [List.mem_singleton] at hb
  subst hb
  have := List.any_eq_false.mp hn a ha
  intro heq
  exact this (beq_iff_eq.mpr heq)

/-- `INSERT OR IGNORE` preserves the uniqueness invariant. -/
theorem sqliteInsertOrIgnore_preserves (db : DbState) (record : ImageRecord)
    (h : UrlsUnique db) : UrlsUnique (sqliteInsertOrIgnore db record) := by
  rw [sqliteInsertOrIgnore]
  split
  · exact h
  · rename_i hany
    exact pairwise_url_append db.rows _ h (by
      rcases hfalse : db.rows.any (fun row => row.originalUrl == record.originalUrl)
      · exact hfalse
      · exact absurd hfalse hany)

/-- `insertImage` preserves the uniqueness invariant. -/
theorem insertImage_preserves (db : DbState) (record : ImageRecord)
    (fault : Option SqlError) (h : UrlsUnique db) :
    UrlsUnique (insertImage db record fault).1 := by
  cases fault with
  | some e =>
    have hfst : (insertImage db record (some e)).1 = db := by
      simp only [insertImage]
      split <;> rfl
    rw [hfst]
    exact h
  | none =>
    by_cases hany : db.rows.any (fun row => row.originalUrl == record.originalUrl) = true
    · have hfst : (insertImage db record none).1 = db := by
        simp only [insertImage, sqliteTryInsert, hany, if_true]
        split <;> rfl
      rw [hfst]
      exact h
    · have hfalse : db.rows.any (fun row => row.originalUrl == record.originalUrl) = false := by
        cases hx : db.rows.any (fun row => row.originalUrl == record.originalUrl)
        · rfl
        · exact absurd hx hany
      have hfst : (insertImage db record none).1 =
          { rows := db.rows ++ [rowOfRecord db.nextId record],
            nextId := db.nextId + 1, lastInsertRowid := db.nextId } := by
        simp only [insertImage, sqliteTryInsert, hfalse, Bool.false_eq_true, if_false]
      rw [hfst]
      exact pairwise_url_append db.rows _ h hfalse

/-- `insertImagesBatch` preserves the uniqueness invariant. -/
theorem insertImagesBatch_preserves (db : DbState) (records : List ImageRecord)
    (fault : Option SqlError) (h : UrlsUnique db) :
    UrlsUnique (insertImagesBatch db records fault).1 := by
  unfold insertImagesBatch
  cases fault with
  | some e => exact h
  | none =>
    have := foldl_preserves (fun acc : DbState × List ℤ => UrlsUnique acc.1)
      (fun _ => True)
      (fun acc record =>
        (sqliteInsertOrIgnore acc.1 record, acc.2 ++ [(sqliteInsertOrIgnore acc.1 record).lastInsertRowid]))
      (fun acc r hacc _ => sqliteInsertOrIgnore_preserves acc.1 r hacc)
      records (db, []) h (fun _ _ => trivial)
    exact this

/-- C3: across every sequence of single and batch insert operations (with
arbitrary injected faults) the store keeps at most one row per
`originalUrl`; a repeated insert of an already-recorded URL leaves the
store unchanged and surfaces the sentinel `-1` (single insert) or a normal
id list (batch insert) instead of an error. -/
theorem store_urls_unique (ops : List DbOp) (db : DbState) (record : ImageRecord)
    (hdup : ∃ row ∈ db.rows, row.originalUrl = record.originalUrl) :
    UrlsUnique (applyOps initialDb ops) ∧
    insertImage db record none = (db, Except.ok (-1)) ∧
    (insertImagesBatch db [record] none).1 = db := by
  have hany : db.rows.any (fun row => row.originalUrl == record.originalUrl) = true := by
    rcases hdup with ⟨row, hmem, heq⟩
    exact List.any_eq_true.mpr ⟨row, hmem, beq_iff_eq.mpr heq⟩
  have hstr : strContains "UNIQUE constraint failed: images.original_url"
      "UNIQUE constraint" = true := by decide
  refine ⟨?_, ?_, ?_⟩
  · refine foldl_preserves UrlsUnique (fun _ => True) applyOp ?_ ops initialDb
      List.Pairwise.nil (fun _ _ => trivial)
    intro s op hs _
    cases op with
    | single r fault => exact insertImage_preserves s r fault hs
    | batch rs fault => exact insertImagesBatch_preserves s rs fault hs
  · simp [insertImage, sqliteTryInsert, hany, hstr]
  · have h1 : sqliteInsertOrIgnore db record = db := by
      rw [sqliteInsertOrIgnore, if_pos hany]
    simp only [insertImagesBatch, List.foldl_cons, List.foldl_nil, h1]

/-- C3 witness: the invariant after a duplicate-heavy operation sequence,
and the no-op second insert against a store already holding the URL. -/
theorem store_urls_unique_witness :
    UrlsUnique (applyOps initialDb c3ops) ∧
    insertImage c3db c3record none = (c3db, Except.ok (-1)) ∧
    (insertImagesBatch c3db [c3record] none).1 = c3db :=
  store_urls_unique c3ops c3db c3record
    ⟨rowOfRecord 1 c3record, List.mem_singleton_self _, rfl⟩

/-- C10: a single-record insert that violates the unique `originalUrl`
constraint is caught and reported as the sentinel id `-1` with the store
unchanged, while any other database failure during the insert is rethrown
to the caller. -/
theorem insertImage_error_policy (db : DbState) (record : ImageRecord)
    (e : SqlError) :
    (db.rows.any (fun row => row.originalUrl == record.originalUrl) = true →
      insertImage db record none = (db, Except.ok (-1))) ∧
    (strContains e.message "UNIQUE constraint" = false →
      insertImage db record (some e) = (db, Except.error e)) := by
  constructor
  · intro hany
    have hstr : strContains "UNIQUE constraint failed: images.original_url"
        "UNIQUE constraint" = true := by decide
    simp [insertImage, sqliteTryInsert, hany, hstr]
  · intro hne
    simp [insertImage, hne]

/-- C10 witness: the duplicate insert against `c10db` yields `-1`, and a
disk error is rethrown unchanged. -/
theorem insertImage_error_policy_witness :
    insertImage c10db c10record none = (c10db, Except.ok (-1)) ∧
    insertImage c10db c10record (some c10error) = (c10db, Except.error c10error) := by
  have h := insertImage_error_policy c10db c10record c10error
  exact ⟨h.1 (by decide), h.2 (by decide)⟩
